import Mathlib

/-!
Verification development for the apy note parser and Markdown/HTML converter.

The Python source (src/apy/convert.py and src/apy/cli.py) is shallowly
embedded below.  Lines of the input file are modelled as a `List String`
where each element is the line WITHOUT its trailing newline character;
wherever the Python code concatenates a raw line (which there still carries
its terminating newline), the model appends `line ++ "\n"`.

Python dictionaries are modelled as ordered association lists with
update-in-place / append-at-end semantics, matching the insertion-order
behaviour of Python dicts.  Python string operations (strip, split,
replace, lower) and the concrete regular expressions of the source are
modelled character-exactly for ASCII input.
-/

namespace Apy

/-! ## Python string primitives -/
/-- Whitespace characters recognised by Python's `\s`, `str.strip()` and
`str.split()` for ASCII text. -/
def pyIsSpace (c : Char) : Bool :=
  c = ' ' || c = '\t' || c = '\n' || c = '\x0d' || c = '\x0b' || c = '\x0c'

/-- Word characters recognised by Python's `\w` for ASCII text. -/
def isWordChar (c : Char) : Bool :=
  c.isAlpha || c.isDigit || c = '_'

/-- Python `str.strip()`: remove leading and trailing whitespace. -/
def pyStrip (s : String) : String :=
  ⟨((s.data.dropWhile pyIsSpace).reverse.dropWhile pyIsSpace).reverse⟩

/-- Python `str.lower()` for ASCII characters. -/
def pyCharLower (c : Char) : Char :=
  if 'A' ≤ c && c ≤ 'Z' then Char.ofNat (c.toNat + 32) else c

/-- Python `s.lower()` for ASCII text. -/
def pyToLower (s : String) : String := ⟨s.data.map pyCharLower⟩

/-- Fuel-indexed worker for `str.replace`: leftmost, non-overlapping
replacement of a non-empty pattern.  The fuel bounds the number of steps so
that the definition is structurally recursive (and hence computes by
`decide`/`rfl` in the kernel). -/
def pyReplaceFuel (pat repl : List Char) : Nat → List Char → List Char
  | _, [] => []
  | 0, l => l
  | fuel + 1, c :: rest =>
    if pat ≠ [] ∧ pat.isPrefixOf (c :: rest) then
      repl ++ pyReplaceFuel pat repl fuel ((c :: rest).drop pat.length)
    else
      c :: pyReplaceFuel pat repl fuel rest

/-- Python `str.replace` on character lists (non-empty pattern). -/
def pyReplaceList (pat repl l : List Char) : List Char :=
  pyReplaceFuel pat repl l.length l

/-- Python `s.replace(pat, repl)`. -/
def pyReplace (s pat repl : String) : String :=
  ⟨pyReplaceList pat.data repl.data s.data⟩

/-- Fuel-indexed worker for Python `str.split()` (split on whitespace runs,
no empty tokens). -/
def pySplitFuel : Nat → List Char → List (List Char)
  | _, [] => []
  | 0, l => [l]
  | fuel + 1, c :: rest =>
    if pyIsSpace c then pySplitFuel fuel rest
    else (c :: rest.takeWhile (fun d => !pyIsSpace d)) ::
      pySplitFuel fuel (rest.dropWhile (fun d => !pyIsSpace d))

/-- Python `s.split()` with no arguments. -/
def pySplitWs (s : String) : List String :=
  (pySplitFuel s.data.length s.data).map (fun l => ⟨l⟩)

/-! ## Ordered dictionaries (the model of Python `dict`) -/
/-- Insert-or-update preserving insertion order, as a Python dict does. -/
def dictSet {α : Type} [DecidableEq α] {β : Type} :
    List (α × β) → α → β → List (α × β)
  | [], k, v => [(k, v)]
  | (k', v') :: rest, k, v =>
    if k' = k then (k, v) :: rest else (k', v') :: dictSet rest k v

/-- Lookup, first match. -/
def dictGet {α : Type} [DecidableEq α] {β : Type} :
    List (α × β) → α → Option β
  | [], _ => none
  | (k', v') :: rest, k => if k' = k then some v' else dictGet rest k

/-- Python `k in d`. -/
def dictHas {α : Type} [DecidableEq α] {β : Type} (d : List (α × β)) (k : α) : Bool :=
  (dictGet d k).isSome

/-- Python `d.pop(k)` (the removal part). -/
def dictRemove {α : Type} [DecidableEq α] {β : Type} :
    List (α × β) → α → List (α × β)
  | [], _ => []
  | (k', v') :: rest, k =>
    if k' = k then rest else (k', v') :: dictRemove rest k

/-- Python `d.update(e)`: fold the entries of `e` into `d` in order. -/
def dictUpdate {α : Type} [DecidableEq α] {β : Type}
    (d e : List (α × β)) : List (α × β) :=
  e.foldl (fun acc kv => dictSet acc kv.1 kv.2) d

/-! ## The line classifier: the concrete regular expressions of `_parse_file` -/
/-- Python `re.match(r'```\s*$', line)`: a closing fence line. -/
def isClosingFence (line : String) : Bool :=
  "```".data.isPrefixOf line.data && (line.data.drop 3).all pyIsSpace

/-- Python `re.match(r'```\w*\s*$', line)`: an opening fence line with an
optional language tag. -/
def isOpeningFence (line : String) : Bool :=
  "```".data.isPrefixOf line.data &&
    ((line.data.drop 3).dropWhile isWordChar).all pyIsSpace

/-- The key normalisation of the property branch: key `tag` is renamed to
`tags`. -/
def tagNormalize (k : String) : String := if k = "tag" then "tags" else k

/-- Python `re.match(r'(\w+): (.*)', line)`, with the normalisation done by
the source right after the match: the key is lower-cased, `tag` is renamed
to `tags`, the value is stripped. -/
def propertyMatch (line : String) : Option (String × String) :=
  if (line.data.takeWhile isWordChar).isEmpty then none
  else if ": ".data.isPrefixOf (line.data.drop (line.data.takeWhile isWordChar).length) then
    some (tagNormalize (pyToLower ⟨line.data.takeWhile isWordChar⟩),
      pyStrip ⟨(line.data.drop (line.data.takeWhile isWordChar).length).drop 2⟩)
  else none

/-- Python `re.match(r'(#+)\s*(.*)', line)`: the heading level and title
(the title keeps its trailing whitespace, as the regex does). -/
def headingMatch (line : String) : Option (Nat × String) :=
  if (line.data.takeWhile (fun c => c = '#')).isEmpty then none
  else some ((line.data.takeWhile (fun c => c = '#')).length,
    ⟨(line.data.drop (line.data.takeWhile (fun c => c = '#')).length).dropWhile pyIsSpace⟩)

/-! ## The block parser state machine (`_parse_file`) -/
/-- A value stored in the Python `note`/`defaults` dictionaries: property
values and the title are strings, `fields` maps to a nested dictionary,
and `markdown_file_to_notes` later rewrites markdown flags to booleans. -/
inductive BVal where
  | str : String → BVal
  | dict : List (String × String) → BVal
  | bool : Bool → BVal
deriving DecidableEq, Repr

/-- The model of a Python dictionary with `BVal` values. -/
abbrev PyDict := List (String × BVal)

/-- Runtime failures of the embedded Python code: `click.Abort` (raised at
the duplicate-title check), `KeyError` and `TypeError`. -/
inductive PyErr where
  | abort : PyErr
  | keyError : PyErr
  | typeError : PyErr
deriving DecidableEq, Repr

/-- Python truthiness of the `field` variable (`None` and the empty string
are falsy). -/
def fieldTruthy : Option String → Bool
  | none => false
  | some s => !s.isEmpty

/-- Python `note['fields'][f] += s`: `KeyError` when `fields` or the field is
absent, `TypeError` when `fields` does not hold a dictionary. -/
def fieldAppend (note : PyDict) (f s : String) : Except PyErr PyDict :=
  match dictGet note "fields" with
  | some (BVal.dict fs) =>
    match dictGet fs f with
    | none => .error .keyError
    | some old => .ok (dictSet note "fields" (BVal.dict (dictSet fs f (old ++ s))))
  | some _ => .error .typeError
  | none => .error .keyError

/-- Python `note['fields'][f] = note['fields'][f].strip()`. -/
def fieldStrip (note : PyDict) (f : String) : Except PyErr PyDict :=
  match dictGet note "fields" with
  | some (BVal.dict fs) =>
    match dictGet fs f with
    | none => .error .keyError
    | some old => .ok (dictSet note "fields" (BVal.dict (dictSet fs f (pyStrip old))))
  | some _ => .error .typeError
  | none => .error .keyError

/-- Python `note['fields'][f] = ''`. -/
def fieldInit (note : PyDict) (f : String) : Except PyErr PyDict :=
  match dictGet note "fields" with
  | some (BVal.dict fs) => .ok (dictSet note "fields" (BVal.dict (dictSet fs f "")))
  | some _ => .error .typeError
  | none => .error .keyError

/-- The mutable state of the `_parse_file` loop. -/
structure PState where
  defaults : PyDict
  notes : List PyDict
  note : PyDict
  codeblock : Bool
  field : Option String
deriving DecidableEq, Repr

def initPState : PState := ⟨[], [], [], false, none⟩

/-- One iteration of the `for line in open(filename)` loop of
`_parse_file`, for a line given without its trailing newline. -/
def parseLine (st : PState) (line : String) : Except PyErr PState :=
  if st.codeblock then do
    let note ←
      if fieldTruthy st.field then
        fieldAppend st.note (st.field.getD "") (line ++ "\n")
      else pure st.note
    pure { st with note := note, codeblock := !isClosingFence line }
  else if isOpeningFence line then do
    let note ←
      if fieldTruthy st.field then
        fieldAppend st.note (st.field.getD "") (line ++ "\n")
      else pure st.note
    pure { st with note := note, codeblock := true }
  else
    match (if fieldTruthy st.field then none else propertyMatch line) with
    | some (k, v) => pure { st with note := dictSet st.note k (BVal.str v) }
    | none =>
      match headingMatch line with
      | none =>
        if fieldTruthy st.field then do
          let note ← fieldAppend st.note (st.field.getD "") (line ++ "\n")
          pure { st with note := note }
        else pure st
      | some (level, title) =>
        if level = 1 then do
          let (defaults, notes) ←
            if !st.note.isEmpty then
              if fieldTruthy st.field then do
                let note ← fieldStrip st.note (st.field.getD "")
                pure (st.defaults, st.notes ++ [note])
              else
                pure (dictUpdate st.defaults st.note, st.notes)
            else pure (st.defaults, st.notes)
          pure { defaults := defaults, notes := notes,
                 note := [("title", BVal.str title), ("fields", BVal.dict [])],
                 codeblock := st.codeblock, field := none }
        else if level = 2 then do
          let note ←
            if fieldTruthy st.field then fieldStrip st.note (st.field.getD "")
            else pure st.note
          if dictHas note title then .error .abort
          else do
            let note ← fieldInit note title
            pure { st with note := note, field := some title }
        else pure st

/-- The code after the loop in `_parse_file`:
`if note and field: strip current field; notes.append(note)`. -/
def finalizeParse (st : PState) : Except PyErr (PyDict × List PyDict) :=
  if !st.note.isEmpty && fieldTruthy st.field then do
    let note ← fieldStrip st.note (st.field.getD "")
    .ok (st.defaults, st.notes ++ [note])
  else .ok (st.defaults, st.notes)

/-- The function `_parse_file`: run the loop over all lines, then finalize. -/
def parse_file (lines : List String) : Except PyErr (PyDict × List PyDict) := do
  let st ← lines.foldlM parseLine initPState
  finalizeParse st

/-! ## Note assembly (`markdown_file_to_notes`) -/
/-- Python `v in ('true', 'yes')` for a dictionary value. -/
def inTrueYes : BVal → Bool
  | BVal.str s => s = "true" || s = "yes"
  | _ => false

/-- The markdown/md flag normalisation applied identically to `defaults`
and to each note by `markdown_file_to_notes`. -/
def normalizeMarkdownFlag (d : PyDict) : PyDict :=
  match dictGet d "markdown" with
  | some v => dictSet d "markdown" (BVal.bool (inTrueYes v))
  | none =>
    match dictGet d "md" with
    | some v => dictRemove (dictSet d "markdown" (BVal.bool (inTrueYes v))) "md"
    | none => d

/-- The comma-removal applied to a `tags` entry:
`d['tags'] = d['tags'].replace(',', '')`.  A non-string value would raise
at the attribute access. -/
def normalizeTags (d : PyDict) : Except PyErr PyDict :=
  match dictGet d "tags" with
  | some (BVal.str s) => .ok (dictSet d "tags" (BVal.str (pyReplace s "," "")))
  | some _ => .error .typeError
  | none => .ok d

/-- Python `note.update({k: v for k, v in defaults.items() if not k in note})`. -/
def mergeMissing (note defaults : PyDict) : PyDict :=
  dictUpdate note (defaults.filter (fun kv => !dictHas note kv.1))

/-- The function `markdown_file_to_notes` from convert.py: parse the file, normalise
the markdown flag and the tags of the defaults and of every note, fill in
the explicit defaults, and merge the defaults into each note. -/
def markdown_file_to_notes (lines : List String) : Except PyErr (List PyDict) := do
  let (defaults, notes) ← parse_file lines
  let defaults := normalizeMarkdownFlag defaults
  let defaults ← normalizeTags defaults
  let defaults := dictUpdate
    [("model", BVal.str "Basic"), ("markdown", BVal.bool true), ("tags", BVal.str "")]
    defaults
  notes.mapM (fun note => do
    let note := normalizeMarkdownFlag note
    let note ← normalizeTags note
    .ok (mergeMissing note defaults))

/-! ## The cli-side note addition (`Anki.add_notes_from_list`, `Anki._add_note`) -/
/-- The tag-string assembly and split of `_add_note`:
`tags = f"{tags} {note['tags']}"` followed by `tags.strip().split()`. -/
def addNoteTagList (tagsParam noteTags : String) : List String :=
  pySplitWs (pyStrip (tagsParam ++ " " ++ noteTags))

/-- Errors of `add_notes_from_list`: `click.Abort` raised when the model is
unknown and when the field count does not match the model, plus the usual
dictionary failures. -/
inductive AddErr where
  | notRecognized : String → AddErr
  | notEnoughFields : String → AddErr
  | keyError : AddErr
  | typeError : AddErr
deriving DecidableEq, Repr

/-- Python truthiness of the value passed as the `markdown` argument of
`_add_note`. -/
def bvalTruthy : BVal → Bool
  | BVal.str s => !s.isEmpty
  | BVal.dict d => !d.isEmpty
  | BVal.bool b => b

/-- The payload handed to the collection by `_add_note`: the field values
in order, the split tag list, and the markdown flag. -/
structure AddedNote where
  fieldValues : List String
  tags : List String
  markdown : Bool
deriving DecidableEq, Repr

/-- The body of the `for note in parsed_notes` loop of
`add_notes_from_list`, given the external schema lookup
(`set_model` + `model['flds']`): validate the field count (abort naming the
model on mismatch), collect a warning for every positionally mismatched
field name, and hand the note to `_add_note`. -/
def addOneNote (modelFields : String → Option (List String)) (tagsParam : String)
    (acc : List AddedNote × List (String × String)) (note : PyDict) :
    Except AddErr (List AddedNote × List (String × String)) :=
  match dictGet note "model" with
  | some (BVal.str modelName) =>
    (match modelFields modelName with
     | some schemaNames =>
       (match dictGet note "fields" with
        | some (BVal.dict fs) =>
          if (fs.map Prod.fst).length ≠ schemaNames.length then
            .error (.notEnoughFields modelName)
          else
            (match dictGet note "tags" with
             | some (BVal.str noteTags) =>
               (match dictGet note "markdown" with
                | some v =>
                  .ok (acc.1 ++
                      [⟨fs.map Prod.snd, addNoteTagList tagsParam noteTags, bvalTruthy v⟩],
                    acc.2 ++ (schemaNames.zip (fs.map Prod.fst)).filter (fun p => p.1 ≠ p.2))
                | none => .error .keyError)
             | some _ => .error .typeError
             | none => .error .keyError)
        | some _ => .error .typeError
        | none => .error .keyError)
     | none => .error (.notRecognized modelName))
  | some _ => .error .typeError
  | none => .error .keyError

/-- The method `add_notes_from_list`: process the parsed notes in order, aborting the
whole operation on the first validation failure. -/
def add_notes_from_list (modelFields : String → Option (List String))
    (tagsParam : String) (parsedNotes : List PyDict) :
    Except AddErr (List AddedNote × List (String × String)) :=
  parsedNotes.foldlM (addOneNote modelFields tagsParam) ([], [])

/-! ## UTF-8 (the model of Python `str.encode('utf-8')` / `bytes.decode`) -/
/-- UTF-8 encoding of one character, as a list of byte values. -/
def utf8EncodeChar (c : Char) : List Nat :=
  if c.toNat < 128 then [c.toNat]
  else if c.toNat < 2048 then [192 + c.toNat / 64, 128 + c.toNat % 64]
  else if c.toNat < 65536 then
    [224 + c.toNat / 4096, 128 + c.toNat / 64 % 64, 128 + c.toNat % 64]
  else
    [240 + c.toNat / 262144, 128 + c.toNat / 4096 % 64,
     128 + c.toNat / 64 % 64, 128 + c.toNat % 64]

/-- UTF-8 encoding of a string. -/
def utf8Encode (s : String) : List Nat :=
  s.data.foldr (fun c acc => utf8EncodeChar c ++ acc) []

/-- Whether a byte is a UTF-8 continuation byte. -/
def isCont (b : Nat) : Bool := 128 ≤ b && b < 192

/-- The scalar value assembled from a two-byte UTF-8 sequence. -/
def asm2 (b0 b1 : Nat) : Nat := (b0 - 192) * 64 + (b1 - 128)

/-- The scalar value assembled from a three-byte UTF-8 sequence. -/
def asm3 (b0 b1 b2 : Nat) : Nat := (b0 - 224) * 4096 + (b1 - 128) * 64 + (b2 - 128)

/-- The scalar value assembled from a four-byte UTF-8 sequence. -/
def asm4 (b0 b1 b2 b3 : Nat) : Nat :=
  (b0 - 240) * 262144 + (b1 - 128) * 4096 + (b2 - 128) * 64 + (b3 - 128)

/-- Fuel-indexed strict UTF-8 decoder (rejecting truncated sequences, bad
continuation bytes, overlong forms, surrogates and out-of-range code
points, as Python's `bytes.decode('utf-8')` does).  The fuel makes the
recursion structural so that the function computes in the kernel. -/
def utf8DecodeFuel : Nat → List Nat → Option (List Char)
  | _, [] => some []
  | 0, _ :: _ => none
  | fuel + 1, b0 :: rest =>
    if b0 < 128 then (utf8DecodeFuel fuel rest).map (fun cs => Char.ofNat b0 :: cs)
    else if b0 < 194 then none
    else if b0 < 224 then
      match rest with
      | b1 :: rest2 =>
        if isCont b1 then
          (utf8DecodeFuel fuel rest2).map (fun cs => Char.ofNat (asm2 b0 b1) :: cs)
        else none
      | [] => none
    else if b0 < 240 then
      match rest with
      | b1 :: b2 :: rest3 =>
        if isCont b1 && isCont b2 && decide (2048 ≤ asm3 b0 b1 b2) &&
            !(decide (55296 ≤ asm3 b0 b1 b2) && decide (asm3 b0 b1 b2 < 57344)) then
          (utf8DecodeFuel fuel rest3).map (fun cs => Char.ofNat (asm3 b0 b1 b2) :: cs)
        else none
      | _ => none
    else if b0 < 245 then
      match rest with
      | b1 :: b2 :: b3 :: rest4 =>
        if isCont b1 && isCont b2 && isCont b3 && decide (65536 ≤ asm4 b0 b1 b2 b3) &&
            decide (asm4 b0 b1 b2 b3 < 1114112) then
          (utf8DecodeFuel fuel rest4).map (fun cs => Char.ofNat (asm4 b0 b1 b2 b3) :: cs)
        else none
      | _ => none
    else none

/-- UTF-8 decoding of a byte list. -/
def utf8DecodeList (bs : List Nat) : Option (List Char) :=
  utf8DecodeFuel bs.length bs

/-- UTF-8 decoding of a byte list into a string. -/
def utf8Decode (bs : List Nat) : Option String :=
  (utf8DecodeList bs).map (fun cs => ⟨cs⟩)

/-! ## Base64 (the model of Python `base64.b64encode` / `b64decode`) -/
/-- The standard base64 alphabet. -/
def b64Alphabet : List Char :=
  "ABCDEFGHIJKLMNOPQRSTUVWXYZabcdefghijklmnopqrstuvwxyz0123456789+/".data

def b64Char (n : Nat) : Char := b64Alphabet.getD n 'A'

def b64Index (c : Char) : Option Nat := b64Alphabet.findIdx? (fun d => d = c)

/-- Base64 encoding of a byte list (with padding). -/
def b64EncodeBytes : List Nat → List Char
  | [] => []
  | [a] => [b64Char (a / 4), b64Char (a % 4 * 16), '=', '=']
  | [a, b] => [b64Char (a / 4), b64Char (a % 4 * 16 + b / 16), b64Char (b % 16 * 4), '=']
  | a :: b :: c :: rest =>
    b64Char (a / 4) :: b64Char (a % 4 * 16 + b / 16) ::
      b64Char (b % 16 * 4 + c / 64) :: b64Char (c % 64) :: b64EncodeBytes rest

/-- Base64 decoding of a character list (strict on shape: padding only in
the final quadruple; like Python it does not check that discarded padding
bits are zero). -/
def b64DecodeChars : List Char → Option (List Nat)
  | [] => some []
  | c1 :: c2 :: c3 :: c4 :: rest =>
    if c3 = '=' ∧ c4 = '=' ∧ rest = [] then do
      let i1 ← b64Index c1
      let i2 ← b64Index c2
      some [i1 * 4 + i2 / 16]
    else if c4 = '=' ∧ rest = [] then do
      let i1 ← b64Index c1
      let i2 ← b64Index c2
      let i3 ← b64Index c3
      some [i1 * 4 + i2 / 16, i2 % 16 * 16 + i3 / 4]
    else do
      let i1 ← b64Index c1
      let i2 ← b64Index c2
      let i3 ← b64Index c3
      let i4 ← b64Index c4
      let tail ← b64DecodeChars rest
      some ([i1 * 4 + i2 / 16, i2 % 16 * 16 + i3 / 4, i3 % 4 * 64 + i4] ++ tail)
  | _ => none

/-- Python `base64.b64encode(s.encode('utf-8')).decode()`. -/
def b64Utf8Encode (s : String) : String := ⟨b64EncodeBytes (utf8Encode s)⟩

/-- Python `base64.b64decode(a.encode()).decode('utf-8')` (`none` on failure). -/
def b64Utf8Decode (a : String) : Option String :=
  (b64DecodeChars a.data).bind utf8Decode

/-! ## The Markdown renderer and provenance extractor (`convert.py`) -/
/-- The character class of the plain fast path:
`[a-zA-Z0-9æøåÆØÅ ,.?+-]`. -/
def plainChar (c : Char) : Bool :=
  ('a' ≤ c && c ≤ 'z') || ('A' ≤ c && c ≤ 'Z') || ('0' ≤ c && c ≤ '9') ||
  c = 'æ' || c = 'ø' || c = 'å' || c = 'Æ' || c = 'Ø' || c = 'Å' ||
  c = ' ' || c = ',' || c = '.' || c = '?' || c = '+' || c = '-'

/-- Worker for the plain fast-path regex: all characters must be in the
class, except that one final newline is allowed (Python's `$` also matches
just before a trailing newline). -/
def plainAux : List Char → Bool
  | [] => true
  | [c] => c = '\n' || plainChar c
  | c :: rest => plainChar c && plainAux rest

/-- Python `re.match(r"[a-zA-Z0-9æøåÆØÅ ,.?+-]*$", plain)` as a boolean. -/
def plainMatch (s : String) : Bool := plainAux s.data

/-- The escape phase of `markdown_to_html`: the backslash/brace/math
escapes and the non-breaking-space normalisation, in source order. -/
def escapeForRender (plain : String) : String :=
  let p := pyReplace plain "\\\\" "\\\\\\\\"
  let p := pyReplace p "\\\x7b" "\\\\\x7b"
  let p := pyReplace p "\\\x7d" "\\\\\x7d"
  let p := pyReplace p "*\x7d" "\\*\x7d"
  let p := pyReplace p "\xc2\xa0" " "
  let p := pyReplace p "\xa0" " "
  let p := pyReplace p "\\[" "\\\\["
  let p := pyReplace p "\\]" "\\\\]"
  let p := pyReplace p "\\(" "\\\\("
  let p := pyReplace p "\\)" "\\\\)"
  p

/-- A view of the first element node among the top-level children of a
parsed HTML tree: its attribute dictionary, and its Python truthiness
(BeautifulSoup tags define length, so an empty tag is falsy). -/
structure FirstTagView where
  attrs : List (String × String)
  truthy : Bool

/-- The external HTML-tree collaborator (BeautifulSoup behind
`BeautifulSoup(...)`, `_get_first_tag`, attribute assignment and
`str(html_tree)`).  The converter is verified for any implementation
satisfying the stated contracts. -/
structure HtmlLib where
  Tree : Type
  parse : String → Tree
  firstTag : Tree → Option FirstTagView
  setAttrFirst : Tree → String → String → Tree
  serialize : Tree → String

/-- The provenance attribute name. -/
def mdKey : String := "data-original-markdown"

/-- Failures of the converter: `TypeError` (attribute access on `None`),
`KeyError` (missing attribute) and the base64/unicode decode errors. -/
inductive RenderErr where
  | typeError : RenderErr
  | keyError : RenderErr
  | decodeError : RenderErr
deriving DecidableEq, Repr

/-- The text actually rendered and stored: the escape phase followed by
the configured subfield substitution when one is configured
(`cfg['subfields']`; the configuration module is external to the two
source files). -/
def styledEscape (styles : Option (String → String)) (plain : String) : String :=
  match styles with
  | some f => f (escapeForRender plain)
  | none => escapeForRender plain

/-- The post-rendering half of `markdown_to_html`: parse the rendered
HTML, locate the first top-level element — synthesising a `div` wrapper
(with a non-breaking-space placeholder for an empty body) when there is
none or when it is falsy — attach the provenance payload to it, and
serialise.  A `TypeError` is raised when even the synthesised tree has no
first element (attribute assignment on `None`). -/
def attachProvenance (H : HtmlLib) (html payload : String) : Except RenderErr String :=
  match H.firstTag (H.parse html) with
  | some tv =>
    if tv.truthy then
      .ok (H.serialize (H.setAttrFirst (H.parse html) mdKey payload))
    else
      (match H.firstTag (H.parse ("<div>" ++ (if html = "" then "&nbsp;" else html) ++
          "</div>")) with
       | some _ => .ok (H.serialize (H.setAttrFirst
           (H.parse ("<div>" ++ (if html = "" then "&nbsp;" else html) ++ "</div>"))
           mdKey payload))
       | none => .error .typeError)
  | none =>
    (match H.firstTag (H.parse ("<div>" ++ (if html = "" then "&nbsp;" else html) ++
        "</div>")) with
     | some _ => .ok (H.serialize (H.setAttrFirst
         (H.parse ("<div>" ++ (if html = "" then "&nbsp;" else html) ++ "</div>"))
         mdKey payload))
     | none => .error .typeError)

/-- The function `markdown_to_html` from convert.py.  The Markdown engine `md` and the
optional configured subfield substitution `styles` are the external
collaborators of the renderer; the rest is the source logic: the plain
fast path, the escape phase, rendering, locating (or synthesising) a
first top-level element, and attaching the base64 provenance payload of
the escaped text with newlines rewritten to `<br />`. -/
def markdown_to_html (H : HtmlLib) (md : String → String)
    (styles : Option (String → String)) (plain : String) : Except RenderErr String :=
  if plainMatch plain then .ok plain
  else
    attachProvenance H (md (styledEscape styles plain))
      (b64Utf8Encode (pyReplace (styledEscape styles plain) "\n" "<br />"))

/-- The function `html_to_markdown` from convert.py: read the provenance attribute of
the first tag, base64/utf-8 decode it, and turn the break tokens back
into newlines. -/
def html_to_markdown (H : HtmlLib) (html : String) : Except RenderErr String :=
  match H.firstTag (H.parse html) with
  | none => .error .typeError
  | some tv =>
    match dictGet tv.attrs mdKey with
    | none => .error .keyError
    | some a =>
      match b64Utf8Decode a with
      | none => .error .decodeError
      | some s => .ok (pyReplace (pyReplace s "<br>" "\n") "<br />" "\n")

/-- The function `is_generated_html` from convert.py (`None` input is reported as not
generated). -/
def is_generated_html (H : HtmlLib) (html : Option String) : Bool :=
  match html with
  | none => false
  | some h =>
    match H.firstTag (H.parse h) with
    | none => false
    | some tv => dictHas tv.attrs mdKey

/-- Collaborator contract: an attribute set on the first tag of a tree
survives serialisation and re-parsing. -/
def AttrRoundtrip (H : HtmlLib) : Prop :=
  ∀ tree v, (H.firstTag tree).isSome = true →
    ∃ tv, H.firstTag (H.parse (H.serialize (H.setAttrFirst tree mdKey v))) = some tv ∧
      dictGet tv.attrs mdKey = some v

/-- Collaborator contract: wrapping a fragment in a `div` yields a first
top-level element. -/
def WrapHasTag (H : HtmlLib) : Prop :=
  ∀ s : String, (H.firstTag (H.parse ("<div>" ++ s ++ "</div>"))).isSome = true

/-- Collaborator contract: text without `<` parses to a tree with no
element node among its top-level children. -/
def NoTagOfPlain (H : HtmlLib) : Prop :=
  ∀ s : String, '<' ∉ s.data → H.firstTag (H.parse s) = none

/-- A minimal model of the HTML-tree collaborator in which a tree is just
the provenance payload itself; it satisfies `AttrRoundtrip` and
`WrapHasTag` and is used to instantiate the contract-parameterised
theorems at concrete inputs. -/
def htmlLibTriv : HtmlLib where
  Tree := String
  parse := fun s => s
  firstTag := fun s => some ⟨[(mdKey, s)], true⟩
  setAttrFirst := fun _ _ v => v
  serialize := fun s => s

/-- A minimal model of the HTML-tree collaborator that reports a first tag
exactly when the text contains a `<`; it satisfies `NoTagOfPlain`. -/
def htmlLibNoTag : HtmlLib where
  Tree := String
  parse := fun s => s
  firstTag := fun s => if '<' ∈ s.data then some ⟨[], true⟩ else none
  setAttrFirst := fun t _ _ => t
  serialize := fun s => s

/-- A concrete stand-in for the external Markdown engine, used to
instantiate the engine-parameterised theorems at concrete inputs. -/
def mdTriv : String → String := fun s => "<p>" ++ s ++ "</p>"

/-- Input characterisation used to state claims about duplicate-free
files: whether some block of the input (fences respected, blocks reset at
level-1 headings) contains two level-2 headings with the same title. -/
def dupFieldHeadingsAux : Bool → List String → List String → Bool
  | _, _, [] => false
  | true, seen, l :: rest => dupFieldHeadingsAux (!isClosingFence l) seen rest
  | false, seen, l :: rest =>
    if isOpeningFence l then dupFieldHeadingsAux true seen rest
    else
      match headingMatch l with
      | some (1, _) => dupFieldHeadingsAux false [] rest
      | some (2, t) =>
        if t ∈ seen then true else dupFieldHeadingsAux false (t :: seen) rest
      | _ => dupFieldHeadingsAux false seen rest

/-- Whether an input file contains a duplicate level-2 heading title
within one block. -/
def dupFieldHeadings (lines : List String) : Bool :=
  dupFieldHeadingsAux false [] lines

/-- Rewriting newlines to break tokens (the storing direction of the
provenance payload). -/
def nlToBr (l : List Char) : List Char := pyReplaceList ['\n'] "<br />".data l

/-- The shape of a parsed note as assembled by `markdown_file_to_notes`,
used to state the field-count validation claim. -/
def mkParsedNote (title : String) (fs : List (String × String)) (m : String)
    (mdv : BVal) (tags : String) : PyDict :=
  [("title", BVal.str title), ("fields", BVal.dict fs), ("model", BVal.str m),
   ("markdown", mdv), ("tags", BVal.str tags)]

/-! ## Theorems -/

theorem pyReplaceFuel_nil (pat repl : List Char) (f : Nat) :
    pyReplaceFuel pat repl f [] = [] := by
  cases f <;> rfl

theorem pyReplaceFuel_congr (pat repl : List Char) :
    ∀ f₁ f₂ l, l.length ≤ f₁ → l.length ≤ f₂ →
      pyReplaceFuel pat repl f₁ l = pyReplaceFuel pat repl f₂ l := by
  intro f₁
  induction f₁ using Nat.strong_induction_on with
  | _ f₁ ih =>
    intro f₂ l h₁ h₂
    cases l with
    | nil => rw [pyReplaceFuel_nil, pyReplaceFuel_nil]
    | cons c rest =>
      match f₁, f₂ with
      | 0, _ => simp at h₁
      | _ + 1, 0 => simp at h₂
      | g₁ + 1, g₂ + 1 =>
        simp only [pyReplaceFuel]
        have hrl : rest.length ≤ g₁ := by simpa using h₁
        have hrl₂ : rest.length ≤ g₂ := by simpa using h₂
        by_cases h : pat ≠ [] ∧ pat.isPrefixOf (c :: rest)
        · rw [if_pos h, if_pos h]
          have hlen : ((c :: rest).drop pat.length).length ≤ rest.length := by
            rcases h with ⟨hne, _⟩
            have : pat.length ≥ 1 := by
              cases pat with
              | nil => simp at hne
              | cons p ps => simp
            simp only [List.length_drop, List.length_cons]
            omega
          exact congrArg (repl ++ ·)
            (ih g₁ (by omega) g₂ ((c :: rest).drop pat.length) (by omega) (by omega))
        · rw [if_neg h, if_neg h]
          exact congrArg (c :: ·) (ih g₁ (by omega) g₂ _ hrl hrl₂)

theorem pyReplaceList_nil (pat repl : List Char) : pyReplaceList pat repl [] = [] := by
  rfl

theorem pyReplaceList_cons (pat repl : List Char) (c : Char) (rest : List Char) :
    pyReplaceList pat repl (c :: rest) =
      if pat ≠ [] ∧ pat.isPrefixOf (c :: rest) then
        repl ++ pyReplaceList pat repl ((c :: rest).drop pat.length)
      else
        c :: pyReplaceList pat repl rest := by
  unfold pyReplaceList
  rw [show (c :: rest).length = rest.length + 1 from rfl]
  simp only [pyReplaceFuel]
  by_cases h : pat ≠ [] ∧ pat.isPrefixOf (c :: rest)
  · rw [if_pos h, if_pos h]
    have hlen : ((c :: rest).drop pat.length).length ≤ rest.length := by
      rcases h with ⟨hne, _⟩
      have : pat.length ≥ 1 := by
        cases pat with
        | nil => simp at hne
        | cons p ps => simp
      simp only [List.length_drop, List.length_cons]
      omega
    exact congrArg (repl ++ ·)
      (pyReplaceFuel_congr pat repl rest.length _ _ hlen (le_refl _))
  · rw [if_neg h, if_neg h]

/-! ## Round-trip lemmas for the encodings -/
theorem b64Index_b64Char : ∀ n : Fin 64, b64Index (b64Char n.val) = some n.val := by
  decide

theorem b64Index_b64Char_of_lt {n : Nat} (h : n < 64) :
    b64Index (b64Char n) = some n :=
  b64Index_b64Char ⟨n, h⟩

theorem b64Char_ne_pad : ∀ n : Fin 64, b64Char n.val ≠ '=' := by
  decide

theorem b64Char_ne_pad_of_lt {n : Nat} (h : n < 64) : b64Char n ≠ '=' :=
  b64Char_ne_pad ⟨n, h⟩

theorem b64_roundtrip : ∀ bs : List Nat, (∀ b ∈ bs, b < 256) →
    b64DecodeChars (b64EncodeBytes bs) = some bs := by
  intro bs
  induction bs using b64EncodeBytes.induct with
  | case1 =>
    intro _
    rfl
  | case2 a =>
    intro h
    have ha : a < 256 := h a (by simp)
    simp only [b64EncodeBytes, b64DecodeChars, and_self, if_true,
      b64Index_b64Char_of_lt (show a / 4 < 64 by omega),
      b64Index_b64Char_of_lt (show a % 4 * 16 < 64 by omega),
      Option.bind_eq_bind, Option.some_bind]
    have e1 : a / 4 * 4 + a % 4 * 16 / 16 = a := by omega
    rw [e1]
  | case3 a b =>
    intro h
    have ha : a < 256 := h a (by simp)
    have hb : b < 256 := h b (by simp)
    have hne : b64Char (b % 16 * 4) ≠ '=' :=
      b64Char_ne_pad_of_lt (show b % 16 * 4 < 64 by omega)
    simp only [b64EncodeBytes, b64DecodeChars, and_self, and_true, true_and]
    rw [if_neg hne, if_pos trivial]
    simp only [b64Index_b64Char_of_lt (show a / 4 < 64 by omega),
      b64Index_b64Char_of_lt (show a % 4 * 16 + b / 16 < 64 by omega),
      b64Index_b64Char_of_lt (show b % 16 * 4 < 64 by omega),
      Option.bind_eq_bind, Option.some_bind]
    have e1 : a / 4 * 4 + (a % 4 * 16 + b / 16) / 16 = a := by omega
    have e2 : (a % 4 * 16 + b / 16) % 16 * 16 + b % 16 * 4 / 4 = b := by omega
    rw [e1, e2]
  | case4 a b c rest ih =>
    intro h
    have ha : a < 256 := h a (by simp)
    have hb : b < 256 := h b (by simp)
    have hc : c < 256 := h c (by simp)
    have hrest : ∀ x ∈ rest, x < 256 := fun x hx => h x (by simp [hx])
    have hne3 : b64Char (b % 16 * 4 + c / 64) ≠ '=' :=
      b64Char_ne_pad_of_lt (show b % 16 * 4 + c / 64 < 64 by omega)
    have hne4 : b64Char (c % 64) ≠ '=' :=
      b64Char_ne_pad_of_lt (show c % 64 < 64 by omega)
    simp only [b64EncodeBytes, b64DecodeChars]
    rw [if_neg (by intro hcon; exact hne3 hcon.1),
        if_neg (by intro hcon; exact hne4 hcon.1)]
    simp only [b64Index_b64Char_of_lt (show a / 4 < 64 by omega),
      b64Index_b64Char_of_lt (show a % 4 * 16 + b / 16 < 64 by omega),
      b64Index_b64Char_of_lt (show b % 16 * 4 + c / 64 < 64 by omega),
      b64Index_b64Char_of_lt (show c % 64 < 64 by omega),
      ih hrest, Option.bind_eq_bind, Option.some_bind]
    have e1 : a / 4 * 4 + (a % 4 * 16 + b / 16) / 16 = a := by omega
    have e2 : (a % 4 * 16 + b / 16) % 16 * 16 + (b % 16 * 4 + c / 64) / 4 = b := by omega
    have e3 : (b % 16 * 4 + c / 64) % 4 * 64 + c % 64 = c := by omega
    rw [e1, e2, e3]
    simp

theorem char_valid_nat (c : Char) :
    c.toNat < 55296 ∨ (57343 < c.toNat ∧ c.toNat < 1114112) := by
  have h := c.valid
  simp only [UInt32.isValidChar, Nat.isValidChar] at h
  exact h

theorem isCont_true {b : Nat} (h1 : 128 ≤ b) (h2 : b < 192) : isCont b = true := by
  simp only [isCont, Bool.and_eq_true, decide_eq_true_eq]
  omega

theorem utf8EncodeChar_eq1 {c : Char} (h : c.toNat < 128) :
    utf8EncodeChar c = [c.toNat] := by
  unfold utf8EncodeChar
  rw [if_pos h]

theorem utf8EncodeChar_eq2 {c : Char} (h1 : ¬c.toNat < 128) (h2 : c.toNat < 2048) :
    utf8EncodeChar c = [192 + c.toNat / 64, 128 + c.toNat % 64] := by
  unfold utf8EncodeChar
  rw [if_neg h1, if_pos h2]

theorem utf8EncodeChar_eq3 {c : Char} (h1 : ¬c.toNat < 128) (h2 : ¬c.toNat < 2048)
    (h3 : c.toNat < 65536) :
    utf8EncodeChar c = [224 + c.toNat / 4096, 128 + c.toNat / 64 % 64, 128 + c.toNat % 64] := by
  unfold utf8EncodeChar
  rw [if_neg h1, if_neg h2, if_pos h3]

theorem utf8EncodeChar_eq4 {c : Char} (h1 : ¬c.toNat < 128) (h2 : ¬c.toNat < 2048)
    (h3 : ¬c.toNat < 65536) :
    utf8EncodeChar c = [240 + c.toNat / 262144, 128 + c.toNat / 4096 % 64,
      128 + c.toNat / 64 % 64, 128 + c.toNat % 64] := by
  unfold utf8EncodeChar
  rw [if_neg h1, if_neg h2, if_neg h3]

theorem utf8DecodeFuel_nil (f : Nat) : utf8DecodeFuel f [] = some [] := by
  cases f <;> rfl

theorem utf8DecodeFuel_congr : ∀ f₁ f₂ bs, bs.length ≤ f₁ → bs.length ≤ f₂ →
    utf8DecodeFuel f₁ bs = utf8DecodeFuel f₂ bs := by
  intro f₁
  induction f₁ using Nat.strong_induction_on with
  | _ f₁ ih =>
    intro f₂ bs h₁ h₂
    cases bs with
    | nil => rw [utf8DecodeFuel_nil, utf8DecodeFuel_nil]
    | cons b0 rest =>
      match f₁, f₂ with
      | 0, _ => simp at h₁
      | _ + 1, 0 => simp at h₂
      | g₁ + 1, g₂ + 1 =>
        have hr₁ : rest.length ≤ g₁ := by simpa using h₁
        have hr₂ : rest.length ≤ g₂ := by simpa using h₂
        simp only [utf8DecodeFuel]
        by_cases c1 : b0 < 128
        · rw [if_pos c1, if_pos c1, ih g₁ (by omega) g₂ rest hr₁ hr₂]
        · rw [if_neg c1, if_neg c1]
          by_cases c2 : b0 < 194
          · rw [if_pos c2, if_pos c2]
          · rw [if_neg c2, if_neg c2]
            by_cases c3 : b0 < 224
            · rw [if_pos c3, if_pos c3]
              cases rest with
              | nil => rfl
              | cons b1 rest2 =>
                have hl₁ : rest2.length ≤ g₁ := by
                  simp only [List.length_cons] at hr₁
                  omega
                have hl₂ : rest2.length ≤ g₂ := by
                  simp only [List.length_cons] at hr₂
                  omega
                dsimp only
                by_cases hc : isCont b1 = true
                · rw [if_pos hc, if_pos hc, ih g₁ (by omega) g₂ rest2 hl₁ hl₂]
                · rw [if_neg hc, if_neg hc]
            · rw [if_neg c3, if_neg c3]
              by_cases c4 : b0 < 240
              · rw [if_pos c4, if_pos c4]
                match rest with
                | [] => rfl
                | [b1] => rfl
                | b1 :: b2 :: rest3 =>
                  have hl₁ : rest3.length ≤ g₁ := by
                    simp only [List.length_cons] at hr₁
                    omega
                  have hl₂ : rest3.length ≤ g₂ := by
                    simp only [List.length_cons] at hr₂
                    omega
                  dsimp only
                  by_cases hc : (isCont b1 && isCont b2 && decide (2048 ≤ asm3 b0 b1 b2) &&
                      !(decide (55296 ≤ asm3 b0 b1 b2) &&
                        decide (asm3 b0 b1 b2 < 57344))) = true
                  · rw [if_pos hc, if_pos hc, ih g₁ (by omega) g₂ rest3 hl₁ hl₂]
                  · rw [if_neg hc, if_neg hc]
              · rw [if_neg c4, if_neg c4]
                by_cases c5 : b0 < 245
                · rw [if_pos c5, if_pos c5]
                  match rest with
                  | [] => rfl
                  | [b1] => rfl
                  | [b1, b2] => rfl
                  | b1 :: b2 :: b3 :: rest4 =>
                    have hl₁ : rest4.length ≤ g₁ := by
                      simp only [List.length_cons] at hr₁
                      omega
                    have hl₂ : rest4.length ≤ g₂ := by
                      simp only [List.length_cons] at hr₂
                      omega
                    dsimp only
                    by_cases hc : (isCont b1 && isCont b2 && isCont b3 &&
                        decide (65536 ≤ asm4 b0 b1 b2 b3) &&
                        decide (asm4 b0 b1 b2 b3 < 1114112)) = true
                    · rw [if_pos hc, if_pos hc, ih g₁ (by omega) g₂ rest4 hl₁ hl₂]
                    · rw [if_neg hc, if_neg hc]
                · rw [if_neg c5, if_neg c5]

theorem utf8DecodeList_cons1 {b0 : Nat} (rest : List Nat) (h : b0 < 128) :
    utf8DecodeList (b0 :: rest) =
      (utf8DecodeList rest).map (fun cs => Char.ofNat b0 :: cs) := by
  unfold utf8DecodeList
  simp only [List.length_cons, utf8DecodeFuel]
  rw [if_pos h]

theorem utf8DecodeList_cons2 {b0 b1 : Nat} (rest : List Nat)
    (h194 : 194 ≤ b0) (h224 : b0 < 224) (hc : isCont b1 = true) :
    utf8DecodeList (b0 :: b1 :: rest) =
      (utf8DecodeList rest).map (fun cs => Char.ofNat (asm2 b0 b1) :: cs) := by
  unfold utf8DecodeList
  simp only [List.length_cons, utf8DecodeFuel]
  rw [if_neg (by omega), if_neg (by omega), if_pos (by omega), if_pos hc,
    utf8DecodeFuel_congr (rest.length + 1) rest.length rest (by omega) (le_refl _)]

theorem utf8DecodeList_cons3 {b0 b1 b2 : Nat} (rest : List Nat)
    (h224 : 224 ≤ b0) (h240 : b0 < 240)
    (hc : (isCont b1 && isCont b2 && decide (2048 ≤ asm3 b0 b1 b2) &&
      !(decide (55296 ≤ asm3 b0 b1 b2) && decide (asm3 b0 b1 b2 < 57344))) = true) :
    utf8DecodeList (b0 :: b1 :: b2 :: rest) =
      (utf8DecodeList rest).map (fun cs => Char.ofNat (asm3 b0 b1 b2) :: cs) := by
  unfold utf8DecodeList
  simp only [List.length_cons, utf8DecodeFuel]
  rw [if_neg (by omega), if_neg (by omega), if_neg (by omega), if_pos (by omega), if_pos hc,
    utf8DecodeFuel_congr (rest.length + 2) rest.length rest (by omega) (le_refl _)]

theorem utf8DecodeList_cons4 {b0 b1 b2 b3 : Nat} (rest : List Nat)
    (h240 : 240 ≤ b0) (h245 : b0 < 245)
    (hc : (isCont b1 && isCont b2 && isCont b3 && decide (65536 ≤ asm4 b0 b1 b2 b3) &&
      decide (asm4 b0 b1 b2 b3 < 1114112)) = true) :
    utf8DecodeList (b0 :: b1 :: b2 :: b3 :: rest) =
      (utf8DecodeList rest).map (fun cs => Char.ofNat (asm4 b0 b1 b2 b3) :: cs) := by
  unfold utf8DecodeList
  simp only [List.length_cons, utf8DecodeFuel]
  rw [if_neg (by omega), if_neg (by omega), if_neg (by omega), if_neg (by omega),
    if_pos (by omega), if_pos hc,
    utf8DecodeFuel_congr (rest.length + 3) rest.length rest (by omega) (le_refl _)]

theorem utf8DecodeList_encodeChar (c : Char) (rest : List Nat) :
    utf8DecodeList (utf8EncodeChar c ++ rest) =
      (utf8DecodeList rest).map (fun cs => c :: cs) := by
  have hv := char_valid_nat c
  by_cases h1 : c.toNat < 128
  · rw [utf8EncodeChar_eq1 h1]
    simp only [List.cons_append, List.nil_append]
    rw [utf8DecodeList_cons1 rest h1, Char.ofNat_toNat]
  · by_cases h2 : c.toNat < 2048
    · rw [utf8EncodeChar_eq2 h1 h2]
      simp only [List.cons_append, List.nil_append]
      rw [utf8DecodeList_cons2 rest (by omega) (by omega)
        (isCont_true (by omega) (by omega))]
      have e : asm2 (192 + c.toNat / 64) (128 + c.toNat % 64) = c.toNat := by
        unfold asm2
        omega
      rw [e, Char.ofNat_toNat]
    · by_cases h3 : c.toNat < 65536
      · rw [utf8EncodeChar_eq3 h1 h2 h3]
        simp only [List.cons_append, List.nil_append]
        have e : asm3 (224 + c.toNat / 4096) (128 + c.toNat / 64 % 64)
            (128 + c.toNat % 64) = c.toNat := by
          unfold asm3
          omega
        rw [utf8DecodeList_cons3 rest (by omega) (by omega)
          (by
            rw [e]
            simp only [Bool.and_eq_true, Bool.not_eq_true', Bool.and_eq_false_iff,
              decide_eq_true_eq, decide_eq_false_iff_not]
            refine ⟨⟨⟨isCont_true (by omega) (by omega),
              isCont_true (by omega) (by omega)⟩, by omega⟩, by omega⟩)]
        rw [e, Char.ofNat_toNat]
      · rw [utf8EncodeChar_eq4 h1 h2 h3]
        simp only [List.cons_append, List.nil_append]
        have e : asm4 (240 + c.toNat / 262144) (128 + c.toNat / 4096 % 64)
            (128 + c.toNat / 64 % 64) (128 + c.toNat % 64) = c.toNat := by
          unfold asm4
          omega
        rw [utf8DecodeList_cons4 rest (by omega) (by omega)
          (by
            rw [e]
            simp only [Bool.and_eq_true, decide_eq_true_eq]
            refine ⟨⟨⟨⟨isCont_true (by omega) (by omega),
              isCont_true (by omega) (by omega)⟩,
              isCont_true (by omega) (by omega)⟩, by omega⟩, by omega⟩)]
        rw [e, Char.ofNat_toNat]

theorem utf8_roundtrip (s : String) : utf8Decode (utf8Encode s) = some s := by
  rcases s with ⟨l⟩
  show utf8Decode (utf8Encode ⟨l⟩) = some ⟨l⟩
  have key : ∀ cs : List Char,
      utf8DecodeList (cs.foldr (fun c acc => utf8EncodeChar c ++ acc) []) = some cs := by
    intro cs
    induction cs with
    | nil => rfl
    | cons c cs ih =>
      simp only [List.foldr_cons, utf8DecodeList_encodeChar, ih]
      rfl
  simp only [utf8Decode, utf8Encode, key]
  rfl

/-- The byte values produced by the UTF-8 encoder are bytes. -/
theorem utf8EncodeChar_lt_256 (c : Char) : ∀ b ∈ utf8EncodeChar c, b < 256 := by
  have hv := char_valid_nat c
  intro b hb
  by_cases h1 : c.toNat < 128
  · rw [utf8EncodeChar_eq1 h1] at hb
    simp only [List.mem_singleton] at hb
    omega
  · by_cases h2 : c.toNat < 2048
    · rw [utf8EncodeChar_eq2 h1 h2] at hb
      simp only [List.mem_cons, List.not_mem_nil, or_false] at hb
      rcases hb with h | h <;> omega
    · by_cases h3 : c.toNat < 65536
      · rw [utf8EncodeChar_eq3 h1 h2 h3] at hb
        simp only [List.mem_cons, List.not_mem_nil, or_false] at hb
        rcases hb with h | h | h <;> omega
      · rw [utf8EncodeChar_eq4 h1 h2 h3] at hb
        simp only [List.mem_cons, List.not_mem_nil, or_false] at hb
        rcases hb with h | h | h | h <;> omega

theorem utf8Encode_lt_256 (s : String) : ∀ b ∈ utf8Encode s, b < 256 := by
  rcases s with ⟨l⟩
  show ∀ b ∈ l.foldr (fun c acc => utf8EncodeChar c ++ acc) [], b < 256
  induction l with
  | nil => intro b hb; simp at hb
  | cons c cs ih =>
    intro b hb
    simp only [List.foldr_cons, List.mem_append] at hb
    rcases hb with h | h
    · exact utf8EncodeChar_lt_256 c b h
    · exact ih b h

/-- The composed payload round trip: what `html_to_markdown` decodes is
exactly what `markdown_to_html` encoded. -/
theorem b64Utf8_roundtrip (s : String) : b64Utf8Decode (b64Utf8Encode s) = some s := by
  simp only [b64Utf8Decode, b64Utf8Encode]
  rw [b64_roundtrip (utf8Encode s) (utf8Encode_lt_256 s)]
  simp only [Option.some_bind]
  exact utf8_roundtrip s

/-! ## The `<br />` round trip of the provenance payload -/
theorem pyReplaceList_cons_not_pref (pat repl : List Char) (c : Char) (rest : List Char)
    (h : pat.isPrefixOf (c :: rest) = false) :
    pyReplaceList pat repl (c :: rest) = c :: pyReplaceList pat repl rest := by
  rw [pyReplaceList_cons]
  rw [if_neg]
  intro hcon
  rw [h] at hcon
  exact absurd hcon.2 (by simp)

theorem isPrefixOf_append_self (l x : List Char) : l.isPrefixOf (l ++ x) = true := by
  induction l with
  | nil => simp [List.isPrefixOf]
  | cons c cs ih => simp [List.isPrefixOf, ih]

theorem pyReplaceList_cons_pref (pat repl rest : List Char) (hne : pat ≠ []) :
    pyReplaceList pat repl (pat ++ rest) = repl ++ pyReplaceList pat repl rest := by
  cases pat with
  | nil => exact absurd rfl hne
  | cons p ps =>
    rw [List.cons_append, pyReplaceList_cons, if_pos]
    · have hdrop : List.drop (p :: ps).length (p :: (ps ++ rest)) = rest := by
        simp only [List.length_cons, List.drop_succ_cons]
        exact List.drop_left ps rest
      rw [hdrop]
    · exact ⟨by simp, isPrefixOf_append_self (p :: ps) rest⟩

theorem nlToBr_cons_nl (rest : List Char) :
    nlToBr ('\n' :: rest) = "<br />".data ++ nlToBr rest := by
  unfold nlToBr
  exact pyReplaceList_cons_pref ['\n'] "<br />".data rest (by simp)

theorem nlToBr_cons_other (c : Char) (rest : List Char) (hc : c ≠ '\n') :
    nlToBr (c :: rest) = c :: nlToBr rest := by
  unfold nlToBr
  refine pyReplaceList_cons_not_pref _ _ c rest ?_
  simp only [List.isPrefixOf, Bool.and_eq_false_iff]
  left
  simp [beq_iff_eq]
  exact fun h => hc h.symm

/-- A payload produced from text with no `<` character contains no `<br>`
occurrence, so the first replacement of `html_to_markdown` leaves it
unchanged. -/
theorem brT_replace_nlToBr (l : List Char) (h : '<' ∉ l) :
    pyReplaceList "<br>".data ['\n'] (nlToBr l) = nlToBr l := by
  induction l with
  | nil => rfl
  | cons c rest ih =>
    have hrest : '<' ∉ rest := fun hx => h (by simp [hx])
    have hc : c ≠ '<' := fun hx => h (by simp [hx])
    by_cases hnl : c = '\n'
    · subst hnl
      rw [nlToBr_cons_nl]
      show pyReplaceList "<br>".data ['\n']
        ('<' :: 'b' :: 'r' :: ' ' :: '/' :: '>' :: nlToBr rest) = _
      rw [pyReplaceList_cons_not_pref _ _ _ _ (by simp [List.isPrefixOf]),
          pyReplaceList_cons_not_pref _ _ _ _ (by simp [List.isPrefixOf]),
          pyReplaceList_cons_not_pref _ _ _ _ (by simp [List.isPrefixOf]),
          pyReplaceList_cons_not_pref _ _ _ _ (by simp [List.isPrefixOf]),
          pyReplaceList_cons_not_pref _ _ _ _ (by simp [List.isPrefixOf]),
          pyReplaceList_cons_not_pref _ _ _ _ (by simp [List.isPrefixOf]),
          ih hrest]
      rfl
    · rw [nlToBr_cons_other c rest hnl,
          pyReplaceList_cons_not_pref _ _ _ _ (by
            simp only [List.isPrefixOf, Bool.and_eq_false_iff]
            left
            simp [beq_iff_eq]
            exact fun hx => hc hx.symm),
          ih hrest]

/-- The second replacement of `html_to_markdown` inverts `nlToBr` on text
with no `<` character. -/
theorem brS_replace_nlToBr (l : List Char) (h : '<' ∉ l) :
    pyReplaceList "<br />".data ['\n'] (nlToBr l) = l := by
  induction l with
  | nil => rfl
  | cons c rest ih =>
    have hrest : '<' ∉ rest := fun hx => h (by simp [hx])
    have hc : c ≠ '<' := fun hx => h (by simp [hx])
    by_cases hnl : c = '\n'
    · subst hnl
      rw [nlToBr_cons_nl,
          pyReplaceList_cons_pref "<br />".data ['\n'] (nlToBr rest) (by simp),
          ih hrest]
      rfl
    · rw [nlToBr_cons_other c rest hnl,
          pyReplaceList_cons_not_pref _ _ _ _ (by
            simp only [List.isPrefixOf, Bool.and_eq_false_iff]
            left
            simp [beq_iff_eq]
            exact fun hx => hc hx.symm),
          ih hrest]

/-- The payload round trip at the string level: for text with no `<`, the
two break-token replacements of `html_to_markdown` recover exactly the
text whose newlines `markdown_to_html` rewrote. -/
theorem br_roundtrip (p : String) (h : '<' ∉ p.data) :
    pyReplace (pyReplace (pyReplace p "\n" "<br />") "<br>" "\n") "<br />" "\n" = p := by
  rcases p with ⟨l⟩
  show String.mk (pyReplaceList "<br />".data ['\n']
    (pyReplaceList "<br>".data ['\n'] (pyReplaceList ['\n'] "<br />".data l))) = ⟨l⟩
  rw [show pyReplaceList ['\n'] "<br />".data l = nlToBr l from rfl,
      brT_replace_nlToBr l h, brS_replace_nlToBr l h]

/-! ## General-purpose small lemmas for the claim proofs -/
theorem str_isEmpty_false {s : String} (h : s ≠ "") : s.isEmpty = false := by
  rw [Bool.eq_false_iff]
  intro he
  exact h ((String.isEmpty_iff s).mp he)

theorem str_empty_append (s : String) : "" ++ s = s := by
  rcases s with ⟨l⟩
  rfl

theorem isPrefixOf_false_of_head_ne (l : List Char) (c : Char) (r : List Char)
    (h : l.head? ≠ some c) (hne : l ≠ []) : l.isPrefixOf (c :: r) = false := by
  cases l with
  | nil => exact absurd rfl hne
  | cons x xs =>
    simp only [List.head?, ne_eq, Option.some.injEq] at h
    simp only [List.isPrefixOf, Bool.and_eq_false_iff]
    left
    simp [beq_iff_eq]
    exact h

theorem foldlM_except_append {ε σ α : Type} (f : σ → α → Except ε σ) (init : σ)
    (xs ys : List α) :
    List.foldlM f init (xs ++ ys) =
      (List.foldlM f init xs).bind (fun s => List.foldlM f s ys) := by
  induction xs generalizing init with
  | nil =>
    simp only [List.nil_append, List.foldlM_nil]
    rfl
  | cons x xs ih =>
    simp only [List.cons_append, List.foldlM_cons]
    cases f init x with
    | error e => rfl
    | ok s => exact ih s

/-! ## The claims -/
/-- C2: the spec requires that a block containing two identical level-2
headings (two `## Front`) aborts the parse with a structural error and
returns no notes.  The code instead parses such a file successfully: the
duplicate check `if title in note` inspects the keys of the note
dictionary (`title`, `fields`, property names), not the names inside
`note['fields']`, so the second `## Front` silently resets the field and
the first field body is lost.  This theorem evaluates the parser at the
failing input. -/
theorem c2_duplicate_field_not_rejected :
    parse_file ["# N", "## Front", "Q", "## Front", "A"] =
      .ok ([], [[("title", BVal.str "N"), ("fields", BVal.dict [("Front", "A")])]]) := by
  rfl

/-- C10: a level-2 heading whose title collides with a key already present
in the block record aborts the parse with the structural error even though
the file contains no duplicate field headings: `## title` always collides
with the stored title key, and `## model` collides with a recorded
`model: M` property line. -/
theorem c10_reserved_title_abort :
    parse_file ["# A", "## title", "x"] = .error .abort ∧
    parse_file ["# A", "model: M", "## model", "x"] = .error .abort ∧
    dupFieldHeadings ["# A", "## title", "x"] = false ∧
    dupFieldHeadings ["# A", "model: M", "## model", "x"] = false := by
  exact ⟨rfl, rfl, rfl, rfl⟩

/-- C4 (counterexample): the claim says that when a block is open at end
of input with no fields, its trailing properties fold into `Defaults`.
For the file `# T` / `model: X` the code returns empty defaults and no
notes: the `model` property is silently discarded, not folded. -/
theorem c4_eof_counterexample :
    parse_file ["# T", "model: X"] = .ok ([], []) ∧
    (parse_file ["# T", "model: X"]).toOption.map (fun r => dictHas r.1 "model") =
      some false := by
  exact ⟨rfl, rfl⟩

/-- C4 (amended): at end of input, if a block is open with a current field
of nonempty title, that field's text is trimmed and the block is appended
to the notes sequence; in every other case — in particular when the open
block has only properties and no current field — the block is discarded
and the defaults are left unchanged (no folding into `Defaults` happens at
end of input). -/
theorem c4_eof_finalization_amended (st : PState) :
    (∀ f fs txt, st.field = some f → f ≠ "" → st.note ≠ [] →
      dictGet st.note "fields" = some (BVal.dict fs) → dictGet fs f = some txt →
      finalizeParse st = .ok (st.defaults,
        st.notes ++ [dictSet st.note "fields" (BVal.dict (dictSet fs f (pyStrip txt)))])) ∧
    (fieldTruthy st.field = false →
      finalizeParse st = .ok (st.defaults, st.notes)) := by
  constructor
  · intro f fs txt hf hfne hnote hfs htxt
    unfold finalizeParse
    rw [if_pos]
    · show (do
        let note ← fieldStrip st.note (st.field.getD "")
        Except.ok (st.defaults, st.notes ++ [note]) :
          Except PyErr (PyDict × List PyDict)) = _
      have hstrip : fieldStrip st.note f =
          .ok (dictSet st.note "fields" (BVal.dict (dictSet fs f (pyStrip txt)))) := by
        unfold fieldStrip
        rw [hfs]
        dsimp only
        rw [htxt]
      rw [hf]
      show fieldStrip st.note f >>= (fun note =>
        Except.ok (st.defaults, st.notes ++ [note])) = _
      rw [hstrip]
      rfl
    · simp only [Bool.and_eq_true, Bool.not_eq_true']
      refine ⟨?_, ?_⟩
      · rw [List.isEmpty_eq_false]
        exact hnote
      · rw [hf]
        show (!f.isEmpty) = true
        rw [str_isEmpty_false hfne]
        rfl
  · intro hft
    unfold finalizeParse
    rw [if_neg]
    simp [hft]

/-- C4 witness: the amended finalization rule evaluated at two concrete
states, one with an open field and one with only trailing properties. -/
theorem c4_eof_finalization_amended_witness :
    finalizeParse ⟨[], [],
      [("title", BVal.str "T"), ("fields", BVal.dict [("F", " x \n")])],
      false, some "F"⟩ =
      .ok ([], [[("title", BVal.str "T"), ("fields", BVal.dict [("F", "x")])]]) ∧
    finalizeParse ⟨[("old", BVal.str "kept")], [],
      [("title", BVal.str "T"), ("fields", BVal.dict []), ("model", BVal.str "X")],
      false, none⟩ =
      .ok ([("old", BVal.str "kept")], []) := by
  constructor
  · exact (c4_eof_finalization_amended
      ⟨[], [], [("title", BVal.str "T"), ("fields", BVal.dict [("F", " x \n")])],
        false, some "F"⟩).1 "F" [("F", " x \n")] " x \n"
      rfl (by decide) (by decide) rfl rfl
  · exact (c4_eof_finalization_amended
      ⟨[("old", BVal.str "kept")], [],
        [("title", BVal.str "T"), ("fields", BVal.dict []), ("model", BVal.str "X")],
        false, none⟩).2 rfl

/-- C5: outside a fenced block, with a field open, a line whose heading
marker has three or more `#` characters is dropped: the parser state is
returned unchanged — no block or field starts, and nothing is appended to
the open field's accumulator. -/
theorem c5_level3_heading_dropped (st : PState) (line : String)
    (hcb : st.codeblock = false) (hf : fieldTruthy st.field = true)
    (h3 : 3 ≤ (line.data.takeWhile (fun c => c = '#')).length) :
    parseLine st line = .ok st := by
  obtain ⟨r, hr⟩ : ∃ r, line.data = '#' :: r := by
    cases hl : line.data with
    | nil =>
      rw [hl] at h3
      simp at h3
    | cons c r =>
      rw [hl] at h3
      by_cases hc : c = '#'
      · exact ⟨r, by rw [hc]⟩
      · rw [List.takeWhile_cons, if_neg (by simpa using hc)] at h3
        simp at h3
  have hfence : isOpeningFence line = false := by
    unfold isOpeningFence
    rw [hr, isPrefixOf_false_of_head_ne _ _ _ (by decide) (by decide)]
    rfl
  have hne : (line.data.takeWhile (fun c => c = '#')).isEmpty = false := by
    rw [List.isEmpty_eq_false]
    intro hcon
    rw [hcon] at h3
    simp at h3
  unfold parseLine
  rw [hcb]
  simp only [Bool.false_eq_true, if_false]
  rw [hfence]
  simp only [Bool.false_eq_true, if_false]
  rw [hf]
  simp only [if_true]
  unfold headingMatch
  rw [hne]
  simp only [Bool.false_eq_true, if_false]
  rw [if_neg (by omega), if_neg (by omega)]
  rfl

/-- C5 witness: the level-3 drop rule evaluated at a concrete state and
line. -/
theorem c5_level3_heading_dropped_witness :
    parseLine ⟨[], [], [("title", BVal.str "T"),
      ("fields", BVal.dict [("F", "body\n")])], false, some "F"⟩ "### sub" =
    .ok ⟨[], [], [("title", BVal.str "T"),
      ("fields", BVal.dict [("F", "body\n")])], false, some "F"⟩ := by
  exact c5_level3_heading_dropped _ _ rfl rfl (by decide)

/-- C9: fenced-block capture.  With a field open (nonempty title), an
opening fence line enters fenced mode and is itself appended verbatim to
the field; inside fenced mode every line is appended verbatim — whatever
it looks like — and fenced mode is left exactly when the line is a closing
fence, with no structural reinterpretation (notes, defaults and the
current field are untouched, only the text accumulates). -/
theorem c9_fenced_verbatim (st : PState) (line : String) (f : String)
    (fs : List (String × String)) (txt : String)
    (hf : st.field = some f) (hfne : f ≠ "")
    (hfs : dictGet st.note "fields" = some (BVal.dict fs))
    (htxt : dictGet fs f = some txt) :
    (st.codeblock = false → isOpeningFence line = true →
      parseLine st line = .ok
        { st with
          codeblock := true,
          note := dictSet st.note "fields"
            (BVal.dict (dictSet fs f (txt ++ (line ++ "\n")))) }) ∧
    (st.codeblock = true →
      parseLine st line = .ok
        { st with
          codeblock := !isClosingFence line,
          note := dictSet st.note "fields"
            (BVal.dict (dictSet fs f (txt ++ (line ++ "\n")))) }) := by
  have hft : fieldTruthy st.field = true := by
    rw [hf]
    show (!f.isEmpty) = true
    rw [str_isEmpty_false hfne]
    rfl
  have happ : fieldAppend st.note (st.field.getD "") (line ++ "\n") =
      .ok (dictSet st.note "fields"
        (BVal.dict (dictSet fs f (txt ++ (line ++ "\n"))))) := by
    rw [hf]
    show fieldAppend st.note f (line ++ "\n") = _
    unfold fieldAppend
    rw [hfs]
    dsimp only
    rw [htxt]
  constructor
  · intro hcb hopen
    unfold parseLine
    rw [hcb]
    simp only [Bool.false_eq_true, if_false]
    rw [hopen]
    simp only [if_true, hft, if_true, happ]
    rfl
  · intro hcb
    unfold parseLine
    rw [hcb]
    simp only [if_true, hft, happ]
    rfl

theorem except_bind_ok {ε α β : Type} (a : α) (g : α → Except ε β) :
    (Except.ok a : Except ε α) >>= g = g a := rfl

theorem except_bind_ok2 {ε α β : Type} (a : α) (g : α → Except ε β) :
    (Except.ok a : Except ε α).bind g = g a := rfl

/-- C3 (counterexample): the claim says file defaults `tags: x,y` give the
assembled note the tag set `{"x","y"}`.  The code removes the commas
instead of treating them as separators: the assembled note carries the
tag string `"xy"`, and the `_add_note` split yields the single tag
`"xy"`, not `{"x","y"}`. -/
theorem c3_tags_counterexample :
    markdown_file_to_notes ["model: Basic", "tags: x,y", "# N", "## Front", "Q"] =
      .ok [[("title", BVal.str "N"), ("fields", BVal.dict [("Front", "Q")]),
        ("model", BVal.str "Basic"), ("markdown", BVal.bool true),
        ("tags", BVal.str "xy")]] ∧
    addNoteTagList "" "xy" = ["xy"] ∧
    addNoteTagList "" "xy" ≠ ["x", "y"] ∧
    "x" ∉ addNoteTagList "" "xy" := by
  exact ⟨rfl, rfl, by decide, by decide⟩

/-- C3 (amended): for a file with defaults `model: Basic` and `tags: x,y`
and a note with no own tags property (arbitrary single field body line
that is neither a heading nor a fence), the assembled note has model
`"Basic"` and the tag string `"xy"` — comma removal deletes the commas, so
the comma-separated pair collapses into the single tag `"xy"` in the
`_add_note` tag split. -/
theorem c3_defaults_inheritance_amended (q : String)
    (hh : headingMatch q = none) (hof : isOpeningFence q = false) :
    markdown_file_to_notes ["model: Basic", "tags: x,y", "# N", "## Front", q] =
      .ok [[("title", BVal.str "N"),
        ("fields", BVal.dict [("Front", pyStrip (q ++ "\n"))]),
        ("model", BVal.str "Basic"), ("markdown", BVal.bool true),
        ("tags", BVal.str "xy")]] ∧
    addNoteTagList "" "xy" = ["xy"] := by
  refine ⟨?_, rfl⟩
  have h5 : parseLine
      ⟨[("model", BVal.str "Basic"), ("tags", BVal.str "x,y")], [],
        [("title", BVal.str "N"), ("fields", BVal.dict [("Front", "")])],
        false, some "Front"⟩ q =
      .ok ⟨[("model", BVal.str "Basic"), ("tags", BVal.str "x,y")], [],
        [("title", BVal.str "N"),
          ("fields", BVal.dict [("Front", "" ++ (q ++ "\n"))])],
        false, some "Front"⟩ := by
    unfold parseLine
    simp only [hof, hh]
    rfl
  have hsplit : (["model: Basic", "tags: x,y", "# N", "## Front", q] : List String) =
      ["model: Basic", "tags: x,y", "# N", "## Front"] ++ [q] := rfl
  unfold markdown_file_to_notes parse_file
  rw [hsplit, foldlM_except_append]
  rw [show List.foldlM parseLine initPState
      ["model: Basic", "tags: x,y", "# N", "## Front"] =
      .ok ⟨[("model", BVal.str "Basic"), ("tags", BVal.str "x,y")], [],
        [("title", BVal.str "N"), ("fields", BVal.dict [("Front", "")])],
        false, some "Front"⟩ from rfl]
  rw [except_bind_ok2, List.foldlM_cons, h5, str_empty_append]
  rfl

/-- C3 witness: the amended defaults-inheritance law evaluated at the
concrete field body `"Q"`. -/
theorem c3_defaults_inheritance_amended_witness :
    markdown_file_to_notes ["model: Basic", "tags: x,y", "# N", "## Front", "Q"] =
      .ok [[("title", BVal.str "N"),
        ("fields", BVal.dict [("Front", pyStrip ("Q" ++ "\n"))]),
        ("model", BVal.str "Basic"), ("markdown", BVal.bool true),
        ("tags", BVal.str "xy")]] ∧
    addNoteTagList "" "xy" = ["xy"] :=
  c3_defaults_inheritance_amended "Q" rfl rfl

/-- C6: field-count validation in `add_notes_from_list`.  After any
successfully processed prefix: a note whose field count differs from the
resolved model's schema aborts the whole operation with the error naming
the model (no note list is returned, whatever follows); a note whose
field count matches is added, contributing one warning pair for every
positionally mismatched field name, and processing succeeds. -/
theorem c6_field_count_validation
    (modelFields : String → Option (List String)) (tagsParam : String)
    (m title tags : String) (mdv : BVal) (sch : List String)
    (fs : List (String × String)) (preAdded : List AddedNote)
    (preWarns : List (String × String)) (pre post : List PyDict)
    (hsch : modelFields m = some sch)
    (hpre : add_notes_from_list modelFields tagsParam pre = .ok (preAdded, preWarns)) :
    (fs.length ≠ sch.length →
      add_notes_from_list modelFields tagsParam
        (pre ++ mkParsedNote title fs m mdv tags :: post) =
        .error (.notEnoughFields m)) ∧
    (fs.length = sch.length →
      add_notes_from_list modelFields tagsParam
        (pre ++ [mkParsedNote title fs m mdv tags]) =
        .ok (preAdded ++
            [⟨fs.map Prod.snd, addNoteTagList tagsParam tags, bvalTruthy mdv⟩],
          preWarns ++ (sch.zip (fs.map Prod.fst)).filter (fun p => p.1 ≠ p.2))) := by
  have hstep : addOneNote modelFields tagsParam (preAdded, preWarns)
      (mkParsedNote title fs m mdv tags) =
      (if (fs.map Prod.fst).length ≠ sch.length then
        .error (.notEnoughFields m)
      else
        .ok (preAdded ++
            [⟨fs.map Prod.snd, addNoteTagList tagsParam tags, bvalTruthy mdv⟩],
          preWarns ++ (sch.zip (fs.map Prod.fst)).filter (fun p => p.1 ≠ p.2))) := by
    rw [show addOneNote modelFields tagsParam (preAdded, preWarns)
        (mkParsedNote title fs m mdv tags) =
        (match modelFields m with
         | some schemaNames =>
           if (fs.map Prod.fst).length ≠ schemaNames.length then
             Except.error (.notEnoughFields m)
           else
             Except.ok (preAdded ++
                 [⟨fs.map Prod.snd, addNoteTagList tagsParam tags, bvalTruthy mdv⟩],
               preWarns ++ (schemaNames.zip (fs.map Prod.fst)).filter (fun p => p.1 ≠ p.2))
         | none => Except.error (.notRecognized m)) from rfl]
    rw [hsch]
  constructor
  · intro hne
    unfold add_notes_from_list at hpre ⊢
    rw [foldlM_except_append, hpre, except_bind_ok2, List.foldlM_cons, hstep,
      if_pos (by simpa using hne)]
    rfl
  · intro heq
    unfold add_notes_from_list at hpre ⊢
    rw [foldlM_except_append, hpre, except_bind_ok2, List.foldlM_cons, hstep,
      if_neg (by simpa using heq)]
    rfl

/-- C6 witness: a schema of two fields rejects a three-field note naming
the model, and accepts a two-field note with one mismatched name,
emitting exactly that warning pair. -/
theorem c6_field_count_validation_witness :
    add_notes_from_list
      (fun s => if s = "Basic" then some ["Front", "Back"] else none) ""
      [mkParsedNote "N" [("Front", "a"), ("Middle", "b"), ("Back", "c")]
        "Basic" (BVal.bool true) "t"] =
      .error (.notEnoughFields "Basic") ∧
    add_notes_from_list
      (fun s => if s = "Basic" then some ["Front", "Back"] else none) ""
      [mkParsedNote "N" [("Frnt", "a"), ("Back", "c")]
        "Basic" (BVal.bool true) "t"] =
      .ok ([⟨["a", "c"], ["t"], true⟩], [("Front", "Frnt")]) := by
  constructor
  · exact (c6_field_count_validation
      (fun s => if s = "Basic" then some ["Front", "Back"] else none) ""
      "Basic" "N" "t" (BVal.bool true) ["Front", "Back"]
      [("Front", "a"), ("Middle", "b"), ("Back", "c")] [] [] [] []
      rfl rfl).1 (by decide)
  · exact (c6_field_count_validation
      (fun s => if s = "Basic" then some ["Front", "Back"] else none) ""
      "Basic" "N" "t" (BVal.bool true) ["Front", "Back"]
      [("Frnt", "a"), ("Back", "c")] [] [] [] []
      rfl rfl).2 (by decide)

/-- C9 witness: the fenced-capture rules evaluated at concrete states: an
opening fence with a language tag, an embedded line that looks like a
heading, and a closing fence. -/
theorem c9_fenced_verbatim_witness :
    parseLine ⟨[], [], [("title", BVal.str "T"),
      ("fields", BVal.dict [("F", "")])], false, some "F"⟩ "```python" =
      .ok ⟨[], [], [("title", BVal.str "T"),
        ("fields", BVal.dict [("F", "```python\n")])], true, some "F"⟩ ∧
    parseLine ⟨[], [], [("title", BVal.str "T"),
      ("fields", BVal.dict [("F", "```python\n")])], true, some "F"⟩ "# not a heading" =
      .ok ⟨[], [], [("title", BVal.str "T"),
        ("fields", BVal.dict [("F", "```python\n# not a heading\n")])], true, some "F"⟩ ∧
    parseLine ⟨[], [], [("title", BVal.str "T"),
      ("fields", BVal.dict [("F", "```python\n# not a heading\n")])], true, some "F"⟩ "```" =
      .ok ⟨[], [], [("title", BVal.str "T"),
        ("fields", BVal.dict [("F", "```python\n# not a heading\n```\n")])],
        false, some "F"⟩ := by
  refine ⟨?_, ?_, ?_⟩
  · exact (c9_fenced_verbatim
      ⟨[], [], [("title", BVal.str "T"), ("fields", BVal.dict [("F", "")])],
        false, some "F"⟩
      "```python" "F" [("F", "")] "" rfl (by decide) rfl rfl).1 rfl (by decide)
  · exact (c9_fenced_verbatim
      ⟨[], [], [("title", BVal.str "T"), ("fields", BVal.dict [("F", "```python\n")])],
        true, some "F"⟩
      "# not a heading" "F" [("F", "```python\n")] "```python\n"
      rfl (by decide) rfl rfl).2 rfl
  · exact (c9_fenced_verbatim
      ⟨[], [], [("title", BVal.str "T"),
        ("fields", BVal.dict [("F", "```python\n# not a heading\n")])],
        true, some "F"⟩
      "```" "F" [("F", "```python\n# not a heading\n")] "```python\n# not a heading\n"
      rfl (by decide) rfl rfl).2 rfl

/-! ## The renderer claims -/
theorem plainAux_no_lt : ∀ l : List Char, plainAux l = true → '<' ∉ l := by
  intro l
  induction l with
  | nil =>
    intro _ h
    simp at h
  | cons c rest ih =>
    intro h hm
    cases rest with
    | nil =>
      simp only [List.mem_singleton] at hm
      subst hm
      exact absurd h (by decide)
    | cons d rest2 =>
      rw [show plainAux (c :: d :: rest2) = (plainChar c && plainAux (d :: rest2))
        from rfl] at h
      simp only [Bool.and_eq_true] at h
      rcases List.mem_cons.mp hm with hc | hm2
      · subst hc
        exact absurd h.1 (by decide)
      · exact ih h.2 hm2

theorem plainMatch_no_lt (t : String) (hp : plainMatch t = true) : '<' ∉ t.data :=
  plainAux_no_lt t.data hp

/-- The collaborator contracts hold for the trivial payload-carrying
instance. -/
theorem attrRoundtrip_triv : AttrRoundtrip htmlLibTriv := by
  intro tree v _
  exact ⟨⟨[(mdKey, v)], true⟩, rfl, rfl⟩

theorem wrapHasTag_triv : WrapHasTag htmlLibTriv := fun _ => rfl

theorem noTagOfPlain_noTag : NoTagOfPlain htmlLibNoTag := by
  intro s h
  show (if '<' ∈ s.data then some (⟨[], true⟩ : FirstTagView) else none) = none
  rw [if_neg h]

/-- Under the attribute-roundtrip and wrapping contracts, the renderer's
post-processing always produces HTML whose first top-level element
carries the provenance payload. -/
theorem attachProvenance_ok (H : HtmlLib) (hA : AttrRoundtrip H) (hW : WrapHasTag H)
    (html payload : String) :
    ∃ out, attachProvenance H html payload = .ok out ∧
      ∃ tv, H.firstTag (H.parse out) = some tv ∧
        dictGet tv.attrs mdKey = some payload := by
  unfold attachProvenance
  cases hft : H.firstTag (H.parse html) with
  | some tv =>
    dsimp only
    by_cases htr : tv.truthy = true
    · rw [if_pos htr]
      obtain ⟨tv', h1, h2⟩ := hA (H.parse html) payload (by rw [hft]; rfl)
      exact ⟨_, rfl, tv', h1, h2⟩
    · rw [if_neg htr]
      obtain ⟨tv2, hft2⟩ := Option.isSome_iff_exists.mp
        (hW (if html = "" then "&nbsp;" else html))
      rw [hft2]
      obtain ⟨tv', h1, h2⟩ := hA
        (H.parse ("<div>" ++ (if html = "" then "&nbsp;" else html) ++ "</div>"))
        payload (by rw [hft2]; rfl)
      exact ⟨_, rfl, tv', h1, h2⟩
  | none =>
    dsimp only
    obtain ⟨tv2, hft2⟩ := Option.isSome_iff_exists.mp
      (hW (if html = "" then "&nbsp;" else html))
    rw [hft2]
    obtain ⟨tv', h1, h2⟩ := hA
      (H.parse ("<div>" ++ (if html = "" then "&nbsp;" else html) ++ "</div>"))
      payload (by rw [hft2]; rfl)
    exact ⟨_, rfl, tv', h1, h2⟩

/-- C7: for every text matching the plain character class the renderer
returns the text unchanged without touching the engine or the HTML tree,
and — under the contract that tag-free text parses with no first element —
`is_generated_html` reports it as not generated. -/
theorem c7_plain_fast_path (H : HtmlLib) (md : String → String)
    (styles : Option (String → String)) (t : String)
    (hNT : NoTagOfPlain H) (hp : plainMatch t = true) :
    markdown_to_html H md styles t = .ok t ∧
    is_generated_html H (some t) = false := by
  constructor
  · unfold markdown_to_html
    rw [if_pos hp]
  · unfold is_generated_html
    dsimp only
    rw [hNT t (plainMatch_no_lt t hp)]

/-- C7 witness: the fast path and non-detection evaluated at the concrete
plain text `"Hello, world?"`. -/
theorem c7_plain_fast_path_witness :
    plainMatch "Hello, world?" = true ∧
    markdown_to_html htmlLibNoTag mdTriv none "Hello, world?" = .ok "Hello, world?" ∧
    is_generated_html htmlLibNoTag (some "Hello, world?") = false := by
  have h := c7_plain_fast_path htmlLibNoTag mdTriv none "Hello, world?"
    noTagOfPlain_noTag (by decide)
  exact ⟨by decide, h.1, h.2⟩

/-- C8: for every text that is not trivially plain, the rendered HTML is
detected as generated: the renderer attaches the provenance marker to a
first top-level element, synthesising a wrapping element (with a
non-breaking-space placeholder for an empty body) when the rendered
output has none, so `is_generated_html` holds on the output. -/
theorem c8_idempotent_detection (H : HtmlLib) (md : String → String)
    (styles : Option (String → String)) (t : String)
    (hA : AttrRoundtrip H) (hW : WrapHasTag H) (hp : plainMatch t = false) :
    ∃ out, markdown_to_html H md styles t = .ok out ∧
      is_generated_html H (some out) = true := by
  unfold markdown_to_html
  rw [if_neg (by simp [hp])]
  obtain ⟨out, ho, tv, h1, h2⟩ := attachProvenance_ok H hA hW
    (md (styledEscape styles t))
    (b64Utf8Encode (pyReplace (styledEscape styles t) "\n" "<br />"))
  refine ⟨out, ho, ?_⟩
  unfold is_generated_html
  dsimp only
  rw [h1]
  simp [dictHas, h2]

/-- C8 witness: idempotent detection evaluated at the concrete non-plain
text `"_"` with the trivial collaborator instance. -/
theorem c8_idempotent_detection_witness :
    plainMatch "_" = false ∧
    (∃ out, markdown_to_html htmlLibTriv mdTriv none "_" = .ok out ∧
      is_generated_html htmlLibTriv (some out) = true) :=
  ⟨by decide, c8_idempotent_detection htmlLibTriv mdTriv none "_"
    attrRoundtrip_triv wrapHasTag_triv (by decide)⟩

/-- C1 (counterexample): the round-trip law fails as stated.  The payload
stored by the renderer is the escape-normalised text, and extraction also
rewrites every `<br>` token to a newline.  For `"a<br>b"` (not trivially
plain, untouched by the escapes) extraction returns `"a\nb"`, and for
`"\[`" the escape phase doubles the backslash so extraction returns
`"\\["`. -/
theorem c1_roundtrip_counterexample :
    AttrRoundtrip htmlLibTriv ∧ WrapHasTag htmlLibTriv ∧
    plainMatch "a<br>b" = false ∧ plainMatch "\\[" = false ∧
    (markdown_to_html htmlLibTriv mdTriv none "a<br>b").bind
      (html_to_markdown htmlLibTriv) = .ok "a\nb" ∧
    (markdown_to_html htmlLibTriv mdTriv none "\\[").bind
      (html_to_markdown htmlLibTriv) = .ok "\\\\[" ∧
    ("a\nb" : String) ≠ "a<br>b" ∧ ("\\\\[" : String) ≠ "\\[" := by
  exact ⟨attrRoundtrip_triv, wrapHasTag_triv, by decide, by decide, rfl, rfl,
    by decide, by decide⟩

/-- C1 (amended): for every Markdown text `t` that is not trivially
plain, is left unchanged by the escape-normalisation phase, contains no
`<` character, and with no subfield substitutions configured, extracting
the Markdown from the rendered HTML recovers `t` exactly, for every
HTML-tree collaborator satisfying the attribute-roundtrip and wrapping
contracts. -/
theorem c1_roundtrip_amended (H : HtmlLib) (md : String → String) (t : String)
    (hA : AttrRoundtrip H) (hW : WrapHasTag H)
    (hp : plainMatch t = false) (hesc : escapeForRender t = t)
    (hlt : '<' ∉ t.data) :
    (markdown_to_html H md none t).bind (html_to_markdown H) = .ok t := by
  unfold markdown_to_html
  rw [if_neg (by simp [hp])]
  have hstyled : styledEscape none t = t := hesc
  rw [hstyled]
  obtain ⟨out, ho, tv, h1, h2⟩ := attachProvenance_ok H hA hW (md t)
    (b64Utf8Encode (pyReplace t "\n" "<br />"))
  rw [ho, except_bind_ok2]
  unfold html_to_markdown
  rw [h1]
  dsimp only
  rw [h2]
  dsimp only
  rw [b64Utf8_roundtrip]
  dsimp only
  rw [br_roundtrip t hlt]

/-- C1 witness: the amended round-trip law evaluated at the concrete
non-plain, escape-invariant text `"hello_world"` with the trivial
collaborator instance. -/
theorem c1_roundtrip_amended_witness :
    plainMatch "hello_world" = false ∧
    escapeForRender "hello_world" = "hello_world" ∧
    (markdown_to_html htmlLibTriv mdTriv none "hello_world").bind
      (html_to_markdown htmlLibTriv) = .ok "hello_world" :=
  ⟨by decide, rfl, c1_roundtrip_amended htmlLibTriv mdTriv "hello_world"
    attrRoundtrip_triv wrapHasTag_triv (by decide) rfl (by decide)⟩

end Apy
